import Mathlib

/-!
Verification development for the streaming ingestion engine implemented in
`src/frontent/src/components/Upload.js` (the `FileUpload` component):
the SSE frame decoder (lines 241 to 246), the message interpreter
(lines 248 to 278), the `streamReducer` state machine (lines 130 to 151)
and the `handleUploadAndAnalyze` session controller (lines 183 to 309).
JavaScript strings are modelled as `List Char`; the network environment
(fetch results, stream chunks, how the read loop terminates) is passed in
as explicit data.  All definitions are executable by structural recursion
so that concrete runs evaluate with `decide` or `rfl`.
-/

/-- The portion of the JavaScript whitespace class (used by
`String.prototype.trim`) that can occur on this wire: space, tab, newline,
carriage return, vertical tab and form feed. -/
def jsWhitespaceChars : List Char := [' ', '\t', '\n', '\r', Char.ofNat 11, Char.ofNat 12]

/-- Whether a character is in that whitespace class. -/
def isJsWhitespace (c : Char) : Bool := jsWhitespaceChars.contains c

/-- Leading-whitespace removal, the left half of `String.prototype.trim`. -/
def trimLeft (l : List Char) : List Char := l.dropWhile isJsWhitespace

/-- Trailing-whitespace removal, the right half of `String.prototype.trim`. -/
def trimRight (l : List Char) : List Char := (trimLeft l.reverse).reverse

/-- Model of `String.prototype.trim`, as applied to each SSE message
(line 245) and to each `data:` body (line 249). -/
def trimChars (l : List Char) : List Char := trimRight (trimLeft l)

/-- Model of `buffer.indexOf of a blank line` followed by the two
`substring` calls of lines 242 to 246: split the buffer at the first
occurrence of two consecutive newline characters, returning the text
before the delimiter and the text after it, or `none` when the buffer
holds no complete frame. -/
def splitAtDelim : List Char → Option (List Char × List Char)
  | [] => none
  | [_] => none
  | c1 :: c2 :: rest =>
    if c1 = '\n' ∧ c2 = '\n' then some ([], rest)
    else
      match splitAtDelim (c2 :: rest) with
      | none => none
      | some (pre, post) => some (c1 :: pre, post)

/-- The literal prefix checked by `message.startsWith` on line 248. -/
def dataHead : List Char := ['d', 'a', 't', 'a', ':']

/-- The completion sentinel compared against on line 252. -/
def doneBody : List Char := ['[', 'D', 'O', 'N', 'E', ']']

/-- Model of `String.prototype.startsWith`. -/
def startsWithChars : List Char → List Char → Bool
  | _, [] => true
  | [], _ :: _ => false
  | c :: cs, p :: ps => c == p && startsWithChars cs ps

/-- Status text dispatched on line 199. -/
def uploadingMsg : List Char := ("Uploading file to server...").data

/-- Status text dispatched on line 212. -/
def streamOpenMsg : List Char := ("File uploaded. Starting processing stream...").data

/-- Status text dispatched with COMPLETE on line 298. -/
def completeMsg : List Char := ("✅ Analysis Complete. Full Report Available.").data

/-- Error text dispatched by the cleanup block on line 301. -/
def interruptedMsg : List Char := ("The streaming connection was interrupted.").data

/-- Fallback error text of line 287, used when the thrown error has an
empty message. -/
def fatalFallbackMsg : List Char := ("A fatal network or processing error occurred.").data

/-- The exception name checked on line 283 to recognise a cancelled fetch. -/
def abortErrName : List Char := ("AbortError").data

/-- The template prefix of the ERROR branch of the reducer (line 147). -/
def errStatusHead : List Char := ("❌ Error: ").data

/-- Initial status text (line 125). -/
def initialStatusMsg : List Char := ("Upload an audio or video file to begin.").data

/-- Status text installed by the START transition (line 133). -/
def startStatusMsg : List Char := ("File uploading...").data

/-- Tag value for status payloads (line 261). -/
def tagStatus : List Char := ("STATUS").data

/-- Tag value for error payloads (line 265). -/
def tagError : List Char := ("ERROR").data

/-- The parsed body of a `data:` message: a JSON object with four optional
string fields, exactly the fields read on lines 261 to 272.  `none`
models an absent (JavaScript `undefined`) field. -/
structure Payload where
  tag : Option (List Char)
  message : Option (List Char)
  transcript : Option (List Char)
  summary : Option (List Char)
deriving DecidableEq, Repr

/-- The actions dispatched to `streamReducer`, exactly the cases of the
switch on lines 131 to 149.  `UPDATE_STATUS` and `COMPLETE` carry an
optional payload because the code can dispatch them with an undefined or
absent payload. -/
inductive StreamAction where
  | START : StreamAction
  | UPDATE_STATUS : Option (List Char) → StreamAction
  | APPEND_TRANSCRIPT : List Char → StreamAction
  | APPEND_SUMMARY : List Char → StreamAction
  | COMPLETE : Option (List Char) → StreamAction
  | ERROR : List Char → StreamAction
deriving DecidableEq, Repr

/-- The published stream state (lines 122 to 128).  `statusMessage` is an
optional string because dispatching `UPDATE_STATUS` with an undefined
payload stores `undefined`. -/
structure StreamState where
  transcript : List Char
  summary : List Char
  statusMessage : Option (List Char)
  error : Option (List Char)
  isProcessing : Bool
deriving DecidableEq, Repr

/-- `initialState` of line 122. -/
def initialState : StreamState :=
  { transcript := []
    summary := []
    statusMessage := some initialStatusMsg
    error := none
    isProcessing := false }

/-- The reducer of lines 130 to 151, case for case.  The COMPLETE branch
models `action.payload || state.statusMessage` (an empty string is falsy
in JavaScript); the ERROR branch models the template literal of
line 147. -/
def streamReducer (state : StreamState) (action : StreamAction) : StreamState :=
  match action with
  | .START =>
    { initialState with isProcessing := true, statusMessage := some startStatusMsg, error := none }
  | .UPDATE_STATUS p => { state with statusMessage := p }
  | .APPEND_TRANSCRIPT t =>
    let newTranscriptPart := if state.transcript.length > 0 then ' ' :: t else t
    { state with transcript := state.transcript ++ newTranscriptPart }
  | .APPEND_SUMMARY t =>
    let newSummaryPart := if state.summary.length > 0 then ' ' :: t else t
    { state with summary := state.summary ++ newSummaryPart }
  | .COMPLETE p =>
    { state with isProcessing := false,
                 statusMessage :=
                   match p with
                   | some t => if t = [] then state.statusMessage else some t
                   | none => state.statusMessage }
  | .ERROR t =>
    { state with isProcessing := false, error := some t,
                 statusMessage := some (errStatusHead ++ t) }

/-- Apply a dispatched action sequence in order (React applies dispatches
to the reducer in dispatch order). -/
def applyActions (s : StreamState) (acts : List StreamAction) : StreamState :=
  acts.foldl streamReducer s

/-- The table of simple JSON string escapes, each paired with the
character it denotes. -/
def escTable : List (Char × Char) :=
  [('"', '"'), ('\\', '\\'), ('/', '/'), ('n', '\n'), ('t', '\t'), ('r', '\r'),
   ('b', Char.ofNat 8), ('f', Char.ofNat 12)]

/-- Character denoted by a JSON string escape, for the simple escapes. -/
def escChar (e : Char) : Option Char :=
  (escTable.find? (fun p => p.1 == e)).map (fun p => p.2)

/-- Parse the remainder of a JSON string literal (the opening quote
already consumed), returning the decoded text and the rest of the
input. -/
def parseStringBody : List Char → Option (List Char × List Char)
  | [] => none
  | '"' :: rest => some ([], rest)
  | '\\' :: rest =>
    match rest with
    | [] => none
    | e :: rest2 =>
      match escChar e, parseStringBody rest2 with
      | some c, some pr => some (c :: pr.1, pr.2)
      | _, _ => none
  | c :: rest =>
    match parseStringBody rest with
    | some pr => some (c :: pr.1, pr.2)
    | none => none

/-- Opening curly bracket character. -/
def lbrace : Char := Char.ofNat 123

/-- Closing curly bracket character. -/
def rbrace : Char := Char.ofNat 125

/-- Parse the members of a JSON object after the opening bracket: a
comma-separated sequence of string-keyed string-valued pairs, through the
closing bracket.  Fuel-driven structural recursion; the callers supply
fuel larger than the input length. -/
def parseMembersAux : Nat → List Char → Option (List (List Char × List Char) × List Char)
  | 0, _ => none
  | fuel + 1, l =>
    match trimLeft l with
    | '"' :: rest =>
      match parseStringBody rest with
      | none => none
      | some (key, rest2) =>
        match trimLeft rest2 with
        | ':' :: rest3 =>
          match trimLeft rest3 with
          | '"' :: rest4 =>
            match parseStringBody rest4 with
            | none => none
            | some (val, rest5) =>
              match trimLeft rest5 with
              | ',' :: rest6 =>
                match parseMembersAux fuel rest6 with
                | none => none
                | some (fs, rest7) => some ((key, val) :: fs, rest7)
              | c :: rest6 => if c = rbrace then some ([(key, val)], rest6) else none
              | [] => none
          | _ => none
        | _ => none
    | _ => none

/-- Last-wins field lookup, matching JavaScript object construction where
a duplicated key keeps its last value. -/
def lookupField (fields : List (List Char × List Char)) (k : List Char) : Option (List Char) :=
  fields.foldl (fun acc kv => if kv.1 = k then some kv.2 else acc) none

/-- JSON object key strings for the four payload fields. -/
def tagKey : List Char := ("tag").data

/-- Key of the `message` field. -/
def messageKey : List Char := ("message").data

/-- Key of the `transcript` field. -/
def transcriptKey : List Char := ("transcript").data

/-- Key of the `summary` field. -/
def summaryKey : List Char := ("summary").data

/-- Model of the platform `JSON.parse` call of line 259, restricted to the
wire contract of the spec: a flat JSON object whose values are string
literals, read into a `Payload`.  Any other input models a thrown parse
error as `none`. -/
def jsonParse (l : List Char) : Option Payload :=
  match trimLeft l with
  | [] => none
  | c :: rest =>
    if c = lbrace then
      match
        (match trimLeft rest with
         | c2 :: rest2 =>
           if c2 = rbrace then some ([], rest2)
           else parseMembersAux (rest.length + 1) rest
         | [] => none)
      with
      | none => none
      | some (fields, rest3) =>
        if trimLeft rest3 = [] then
          some { tag := lookupField fields tagKey
                 message := lookupField fields messageKey
                 transcript := lookupField fields transcriptKey
                 summary := lookupField fields summaryKey }
        else none
    else none

/-- The per-payload interpretation of lines 259 to 277, for one `data:`
body.  A parse failure is caught by the inner catch of line 274 and
yields no action.  A payload with `tag == "ERROR"` throws on line 266;
that throw is caught by the same inner catch of line 274 (which only
logs), so the frame yields only the actions dispatched before the throw
and the session continues.  Truthiness of `data.transcript` and
`data.summary` means: present and not the empty string. -/
def interpretData (parse : List Char → Option Payload) (body : List Char) : List StreamAction :=
  match parse body with
  | none => []
  | some d =>
    let statusActs := if d.tag = some tagStatus then [StreamAction.UPDATE_STATUS d.message] else []
    if d.tag = some tagError then statusActs
    else
      statusActs
        ++ (match d.transcript with
            | some t => if t = [] then [] else [StreamAction.APPEND_TRANSCRIPT t]
            | none => [])
        ++ (match d.summary with
            | some t => if t = [] then [] else [StreamAction.APPEND_SUMMARY t]
            | none => [])

/-- Fuel-driven form of the frame-extraction loop of lines 241 to 246 with
the interpretation factored out: repeatedly split the buffer at the next
blank line, emit each message trimmed, and stop when no delimiter
remains.  Each step consumes at least two characters, so fuel equal to
the buffer length always suffices. -/
def drainFramesF : Nat → List Char → List (List Char) × List Char
  | 0, buf => ([], buf)
  | fuel + 1, buf =>
    match splitAtDelim buf with
    | none => ([], buf)
    | some (pre, rest) =>
      let r := drainFramesF fuel rest
      (trimChars pre :: r.1, r.2)

/-- The frame decoder: all complete frames currently in the buffer, in
order, together with the retained remainder. -/
def drainFrames (buf : List Char) : List (List Char) × List Char :=
  drainFramesF buf.length buf

/-- Feeding a sequence of decoded text chunks to the frame decoder, as the
read loop does on line 238: append each chunk to the retained buffer and
drain all complete frames. -/
def feedChunks : List (List Char) → List Char → List (List Char) × List Char
  | [], buf => ([], buf)
  | c :: cs, buf =>
    let r := drainFrames (buf ++ c)
    let r2 := feedChunks cs r.2
    (r.1 ++ r2.1, r2.2)

/-- A wire record: a frame body followed by the blank-line delimiter. -/
def mkRecord (r : List Char) : List Char := r ++ ['\n', '\n']

/-- Fuel-driven form of the full inner message loop of lines 241 to 279:
drain each complete message, ignore messages that do not start with
`data:`, return early (second component `none`) on the `[DONE]` sentinel
without touching the remaining buffer, and otherwise interpret the body
and continue. -/
def processBufferF (parse : List Char → Option Payload) :
    Nat → List Char → List StreamAction × Option (List Char)
  | 0, buf => ([], some buf)
  | fuel + 1, buf =>
    match splitAtDelim buf with
    | none => ([], some buf)
    | some (pre, rest) =>
      let message := trimChars pre
      if startsWithChars message dataHead then
        let body := trimChars (message.drop 5)
        if body = doneBody then ([], none)
        else
          let r := processBufferF parse fuel rest
          (interpretData parse body ++ r.1, r.2)
      else processBufferF parse fuel rest

/-- The inner message loop applied to a buffer: the dispatched actions and
either `some` remaining buffer (keep reading) or `none` (the `[DONE]`
early return of line 255). -/
def processBuffer (parse : List Char → Option Payload) (buf : List Char) :
    List StreamAction × Option (List Char) :=
  processBufferF parse buf.length buf

/-- Continuation of the message loop after a first buffer segment: nothing
runs after a `[DONE]` early exit, otherwise the retained remainder is
prepended to the following text. -/
def contBuf (parse : List Char → Option Payload) (r : Option (List Char)) (y : List Char) :
    List StreamAction × Option (List Char) :=
  match r with
  | none => ([], none)
  | some rb => processBuffer parse (rb ++ y)

/-- A `data:` record as produced by the backend: the directive, one space,
the body, and the blank-line delimiter. -/
def mkDataRecord (b : List Char) : List Char := dataHead ++ ' ' :: b ++ ['\n', '\n']

/-- The record carrying the completion sentinel. -/
def doneRecord : List Char := mkDataRecord doneBody

/-- A body in the clean single-line form the backend emits: no raw newline,
already trimmed, and not the completion sentinel. -/
def cleanDataBody (b : List Char) : Prop :=
  '\n' ∉ b ∧ trimChars b = b ∧ b ≠ doneBody

instance cleanDataBodyDecidable (b : List Char) : Decidable (cleanDataBody b) := by
  unfold cleanDataBody
  infer_instance

/-- A JavaScript exception as observed by the catch of line 282: its
`name` and `message`. -/
structure JsError where
  name : List Char
  message : List Char
deriving DecidableEq, Repr

/-- How the transport ends after its chunks are delivered: a normal
`done` read (line 232), or a rejected read carrying an exception
(a network failure, or an `AbortError` when the shared abort signal was
triggered by a cancellation request). -/
inductive ReadEnd where
  | eof : ReadEnd
  | fail : JsError → ReadEnd
deriving DecidableEq, Repr

/-- How the read loop of lines 229 to 280 exits: the `[DONE]` early return
of line 255, the normal `break` of line 234, or a thrown exception. -/
inductive LoopExit where
  | doneSignal : LoopExit
  | normalEof : LoopExit
  | thrown : JsError → LoopExit
deriving DecidableEq, Repr

/-- The read loop: pull each chunk, append it to the buffer, run the inner
message loop, and stop on the `[DONE]` early return; after the last chunk
the transport reports `done` or rejects. -/
def readLoop (parse : List Char → Option Payload) :
    List (List Char) → ReadEnd → List Char → List StreamAction × LoopExit
  | [], .eof, _ => ([], .normalEof)
  | [], .fail e, _ => ([], .thrown e)
  | c :: cs, ek, buf =>
    let r := processBuffer parse (buf ++ c)
    match r.2 with
    | none => (r.1, .doneSignal)
    | some buf2 =>
      let rest := readLoop parse cs ek buf2
      (r.1 ++ rest.1, rest.2)

/-- Outcome of the try block of lines 197 to 281: success means
`isStreamSuccessful` was set by the `[DONE]` return; `normal` means the
loop ended by transport exhaustion without the sentinel; `thrown` means an
exception escaped to the catch of line 282. -/
inductive TryOutcome where
  | success : TryOutcome
  | normal : TryOutcome
  | thrown : JsError → TryOutcome
deriving DecidableEq, Repr

/-- Map a loop exit to the try-block outcome. -/
def exitToOutcome : LoopExit → TryOutcome
  | .doneSignal => .success
  | .normalEof => .normal
  | .thrown e => .thrown e

/-- Whether the try block set `isStreamSuccessful` (line 253). -/
def isSuccess : TryOutcome → Bool
  | .success => true
  | _ => false

/-- The try block of lines 197 to 281: dispatch the uploading status, run
the upload fetch (a failed upload, whether a rejected fetch or the
non-2xx throw of line 208, surfaces as a thrown `JsError`), dispatch the
stream-opening status, open the stream likewise, then run the read
loop. -/
def tryPhase (parse : List Char → Option Payload)
    (uploadResult streamResult : Except JsError Unit)
    (chunks : List (List Char)) (endKind : ReadEnd) : List StreamAction × TryOutcome :=
  match uploadResult with
  | .error e => ([StreamAction.UPDATE_STATUS (some uploadingMsg)], .thrown e)
  | .ok _ =>
    match streamResult with
    | .error e =>
      ([StreamAction.UPDATE_STATUS (some uploadingMsg), StreamAction.UPDATE_STATUS (some streamOpenMsg)],
       .thrown e)
    | .ok _ =>
      let r := readLoop parse chunks endKind []
      ([StreamAction.UPDATE_STATUS (some uploadingMsg), StreamAction.UPDATE_STATUS (some streamOpenMsg)]
         ++ r.1,
       exitToOutcome r.2)

/-- The catch block of lines 282 to 288: an `AbortError` is only logged;
any other exception dispatches ERROR with `err.message` or the fallback
text when the message is empty (the falsy check of line 287). -/
def catchActions : TryOutcome → List StreamAction
  | .thrown e =>
    if e.name = abortErrName then []
    else [StreamAction.ERROR (if e.message = [] then fatalFallbackMsg else e.message)]
  | _ => []

/-- JavaScript falsiness of the closure-captured `state.error`: null,
undefined or the empty string. -/
def jsFalsy : Option (List Char) → Bool
  | none => true
  | some s => s = []

/-- The cleanup block of lines 289 to 308: on success dispatch COMPLETE;
otherwise dispatch the interrupted ERROR when the closure-captured
`state.error` is falsy.  `closureError` is the value of `state.error`
captured when the `useCallback` closure was created (line 309 lists
`state.error` as a dependency), not the live reducer state. -/
def cleanupActions (success : Bool) (closureError : Option (List Char)) : List StreamAction :=
  if success then [StreamAction.COMPLETE (some completeMsg)]
  else if jsFalsy closureError then [StreamAction.ERROR interruptedMsg]
  else []

/-- One full run of the body of `handleUploadAndAnalyze` after its guard:
START, the try block, the catch block, then the cleanup block, in
dispatch order. -/
def runSession (parse : List Char → Option Payload) (closureError : Option (List Char))
    (uploadResult streamResult : Except JsError Unit)
    (chunks : List (List Char)) (endKind : ReadEnd) : List StreamAction :=
  let tp := tryPhase parse uploadResult streamResult chunks endKind
  StreamAction.START :: (tp.1 ++ catchActions tp.2 ++ cleanupActions (isSuccess tp.2) closureError)

/-- `handleUploadAndAnalyze` (line 183): the guard of line 184 rejects the
request as a no-op when no file is selected or the closure-captured state
is still processing; otherwise the session body runs. -/
def handleUploadAndAnalyze (hasFile : Bool) (closureState : StreamState)
    (parse : List Char → Option Payload) (uploadResult streamResult : Except JsError Unit)
    (chunks : List (List Char)) (endKind : ReadEnd) : List StreamAction :=
  if !hasFile || closureState.isProcessing then []
  else runSession parse closureState.error uploadResult streamResult chunks endKind

/-- Whether an action is a terminal transition (COMPLETE or ERROR). -/
def isTerminalAction : StreamAction → Bool
  | .COMPLETE _ => true
  | .ERROR _ => true
  | _ => false

/-- Splitting at the delimiter consumes at least the delimiter: the
remainder is strictly shorter than the buffer. -/
theorem splitAtDelim_length : ∀ {a pre post : List Char},
    splitAtDelim a = some (pre, post) → post.length < a.length := by
  intro a
  induction a with
  | nil => intro pre post h; simp [splitAtDelim] at h
  | cons c rest ih =>
    intro pre post h
    cases rest with
    | nil => simp [splitAtDelim] at h
    | cons c2 rest2 =>
      rw [splitAtDelim] at h
      by_cases hd : c = '\n' ∧ c2 = '\n'
      · rw [if_pos hd] at h
        cases h
        simp
        omega
      · rw [if_neg hd] at h
        cases hs : splitAtDelim (c2 :: rest2) with
        | none => rw [hs] at h; cases h
        | some pq =>
          obtain ⟨p, q⟩ := pq
          rw [hs] at h
          cases h
          have hq := ih hs
          simp at hq ⊢
          omega

/-- The first delimiter of a buffer stays the first delimiter after more
text is appended. -/
theorem splitAtDelim_append : ∀ {a pre post : List Char} (b : List Char),
    splitAtDelim a = some (pre, post) →
    splitAtDelim (a ++ b) = some (pre, post ++ b) := by
  intro a
  induction a with
  | nil => intro pre post b h; simp [splitAtDelim] at h
  | cons c rest ih =>
    intro pre post b h
    cases rest with
    | nil => simp [splitAtDelim] at h
    | cons c2 rest2 =>
      rw [splitAtDelim] at h
      rw [List.cons_append, List.cons_append, splitAtDelim]
      by_cases hd : c = '\n' ∧ c2 = '\n'
      · rw [if_pos hd] at h ⊢
        cases h
        rfl
      · rw [if_neg hd] at h ⊢
        cases hs : splitAtDelim (c2 :: rest2) with
        | none => rw [hs] at h; cases h
        | some pq =>
          obtain ⟨p, q⟩ := pq
          rw [hs] at h
          cases h
          have h2 := ih b hs
          rw [List.cons_append] at h2
          rw [h2]

/-- A record whose body holds no newline is split exactly at its
terminating blank line. -/
theorem splitAtDelim_record : ∀ {r : List Char} (rest : List Char), '\n' ∉ r →
    splitAtDelim (r ++ '\n' :: '\n' :: rest) = some (r, rest) := by
  intro r
  induction r with
  | nil =>
    intro rest _
    simp [splitAtDelim]
  | cons c r2 ih =>
    intro rest hr
    have hc : c ≠ '\n' := by
      intro hc
      exact hr (hc ▸ List.mem_cons_self c r2)
    have hr2 : '\n' ∉ r2 := fun hm => hr (List.mem_cons_of_mem c hm)
    cases r2 with
    | nil =>
      rw [show [c] ++ '\n' :: '\n' :: rest = c :: '\n' :: '\n' :: rest from rfl, splitAtDelim]
      rw [if_neg (by intro hd; exact hc hd.1)]
      have h2 := ih rest hr2
      rw [List.nil_append] at h2
      rw [h2]
    | cons c2 r3 =>
      rw [List.cons_append, List.cons_append, splitAtDelim]
      rw [if_neg (by intro hd; exact hc hd.1)]
      have h2 := ih rest hr2
      rw [List.cons_append] at h2
      rw [h2]

/-- Dropping a prefix never lengthens a list. -/
theorem dropWhile_length_le (p : Char → Bool) (l : List Char) :
    (l.dropWhile p).length ≤ l.length :=
  (List.dropWhile_sublist p).length_le

/-- A `dropWhile` that keeps the full length keeps the whole list. -/
theorem dropWhile_eq_self_of_length (p : Char → Bool) :
    ∀ l : List Char, (l.dropWhile p).length = l.length → l.dropWhile p = l := by
  intro l h
  cases l with
  | nil => rfl
  | cons c t =>
    rw [List.dropWhile_cons] at h ⊢
    by_cases hp : p c = true
    · rw [if_pos hp] at h
      have := dropWhile_length_le p t
      simp at h
      omega
    · rw [if_neg hp]

/-- A list fixed by `trimChars` is fixed by each of its two halves. -/
theorem trim_fixed_parts {b : List Char} (h : trimChars b = b) :
    trimLeft b = b ∧ trimRight b = b := by
  have h1 : (trimLeft b).length ≤ b.length := dropWhile_length_le _ _
  have h2 : (trimRight (trimLeft b)).length ≤ (trimLeft b).length := by
    unfold trimRight
    have := dropWhile_length_le isJsWhitespace (trimLeft b).reverse
    simpa [trimLeft] using this
  have hh : (trimChars b).length = b.length := by rw [h]
  unfold trimChars at hh
  have hl : (trimLeft b).length = b.length := by omega
  have hfix : trimLeft b = b := dropWhile_eq_self_of_length _ _ hl
  constructor
  · exact hfix
  · have : trimChars b = trimRight b := by unfold trimChars; rw [hfix]
    rw [← this, h]

/-- Dropping from a list that drops nothing, followed by anything, drops
nothing. -/
theorem dropWhile_append_of_fixed {p : Char → Bool} {l1 : List Char} (l2 : List Char)
    (hne : l1 ≠ []) (h : l1.dropWhile p = l1) :
    (l1 ++ l2).dropWhile p = l1 ++ l2 := by
  cases l1 with
  | nil => exact absurd rfl hne
  | cons c t =>
    rw [List.dropWhile_cons] at h
    by_cases hp : p c = true
    · rw [if_pos hp] at h
      have := dropWhile_length_le p t
      have : (c :: t).length ≤ t.length := by rw [← h]; exact this
      simp at this
    · rw [List.cons_append, List.dropWhile_cons, if_neg hp]

/-- Trimming on the right ignores a prefix when the suffix is nonempty and
right-trim fixed. -/
theorem trimRight_append_of_fixed {x b : List Char} (hne : b ≠ []) (h : trimRight b = b) :
    trimRight (x ++ b) = x ++ b := by
  have hb : trimLeft b.reverse = b.reverse := by
    have := congrArg List.reverse h
    unfold trimRight at this
    rw [List.reverse_reverse] at this
    exact this
  have hbr : b.reverse ≠ [] := by
    intro hr
    exact hne (by simpa using congrArg List.reverse hr)
  unfold trimRight trimLeft
  rw [List.reverse_append]
  rw [dropWhile_append_of_fixed x.reverse hbr hb]
  rw [← List.reverse_append]
  rw [List.reverse_reverse]

/-- Trimming removes a leading whitespace character. -/
theorem trimChars_cons_ws {c : Char} (l : List Char) (h : isJsWhitespace c = true) :
    trimChars (c :: l) = trimChars l := by
  unfold trimChars trimLeft
  rw [List.dropWhile_cons, if_pos h]

/-- Fuel irrelevance for the frame-extraction loop: any fuel at least the
buffer length gives the same result. -/
theorem drainFramesF_fuel :
    ∀ (f1 f2 : Nat) (buf : List Char), buf.length ≤ f1 → buf.length ≤ f2 →
      drainFramesF f1 buf = drainFramesF f2 buf := by
  intro f1
  induction f1 with
  | zero =>
    intro f2 buf h1 _
    have hb : buf = [] := List.eq_nil_of_length_eq_zero (Nat.le_zero.mp h1)
    subst hb
    cases f2 <;> simp [drainFramesF, splitAtDelim]
  | succ n ih =>
    intro f2 buf h1 h2
    cases f2 with
    | zero =>
      have hb : buf = [] := List.eq_nil_of_length_eq_zero (Nat.le_zero.mp h2)
      subst hb
      simp [drainFramesF, splitAtDelim]
    | succ m =>
      simp only [drainFramesF]
      cases hs : splitAtDelim buf with
      | none => rfl
      | some pr =>
        obtain ⟨pre, rest⟩ := pr
        have hlen := splitAtDelim_length hs
        simp [ih m rest (by omega) (by omega)]

/-- Unfolding equation of the frame decoder when the buffer holds no
complete frame. -/
theorem drainFrames_eq_none {buf : List Char} (h : splitAtDelim buf = none) :
    drainFrames buf = ([], buf) := by
  unfold drainFrames
  cases hn : buf.length with
  | zero => simp [drainFramesF]
  | succ n => simp [drainFramesF, h]

/-- Unfolding equation of the frame decoder when the buffer holds a
complete frame: emit it trimmed and recurse on the remainder. -/
theorem drainFrames_eq_some {buf pre rest : List Char}
    (h : splitAtDelim buf = some (pre, rest)) :
    drainFrames buf = (trimChars pre :: (drainFrames rest).1, (drainFrames rest).2) := by
  have hlen := splitAtDelim_length h
  obtain ⟨n, hn⟩ : ∃ n, buf.length = n + 1 := ⟨buf.length - 1, by omega⟩
  unfold drainFrames
  rw [hn]
  simp only [drainFramesF, h]
  rw [drainFramesF_fuel n rest.length rest (by omega) le_rfl]

/-- Draining a concatenation first drains the left part, then drains its
retained remainder joined with the right part. -/
theorem drainFrames_append :
    ∀ (n : Nat) (x : List Char), x.length ≤ n → ∀ y : List Char,
      drainFrames (x ++ y)
        = ((drainFrames x).1 ++ (drainFrames ((drainFrames x).2 ++ y)).1,
           (drainFrames ((drainFrames x).2 ++ y)).2) := by
  intro n
  induction n with
  | zero =>
    intro x hx y
    have hb : x = [] := List.eq_nil_of_length_eq_zero (Nat.le_zero.mp hx)
    subst hb
    have h0 : drainFrames ([] : List Char) = ([], []) :=
      drainFrames_eq_none (show splitAtDelim [] = none from rfl)
    rw [h0]
    simp
  | succ n ih =>
    intro x hx y
    cases hs : splitAtDelim x with
    | none =>
      rw [drainFrames_eq_none hs]
      simp
    | some pr =>
      obtain ⟨pre, rest⟩ := pr
      have hlen := splitAtDelim_length hs
      rw [drainFrames_eq_some hs]
      rw [drainFrames_eq_some (splitAtDelim_append y hs)]
      rw [ih rest (by omega) y]
      simp

/-- The buffer retained by the frame decoder never holds a delimiter. -/
theorem drainFrames_residue :
    ∀ (n : Nat) (buf : List Char), buf.length ≤ n →
      splitAtDelim (drainFrames buf).2 = none := by
  intro n
  induction n with
  | zero =>
    intro buf hb
    have hb2 : buf = [] := List.eq_nil_of_length_eq_zero (Nat.le_zero.mp hb)
    subst hb2
    have h0 : drainFrames ([] : List Char) = ([], []) :=
      drainFrames_eq_none (show splitAtDelim [] = none from rfl)
    rw [h0]
    rfl
  | succ n ih =>
    intro buf hb
    cases hs : splitAtDelim buf with
    | none => rw [drainFrames_eq_none hs]; exact hs
    | some pr =>
      obtain ⟨pre, rest⟩ := pr
      have hlen := splitAtDelim_length hs
      rw [drainFrames_eq_some hs]
      exact ih rest (by omega)

/-- Incremental feeding equals draining the concatenated text: the frames
produced by `feedChunks` depend only on the concatenation of the chunks,
as long as the starting buffer holds no complete frame. -/
theorem feedChunks_join :
    ∀ (cs : List (List Char)) (buf : List Char), splitAtDelim buf = none →
      feedChunks cs buf = drainFrames (buf ++ cs.flatten) := by
  intro cs
  induction cs with
  | nil =>
    intro buf h
    rw [feedChunks, List.flatten_nil, List.append_nil, drainFrames_eq_none h]
  | cons c cs ih =>
    intro buf h
    rw [feedChunks, List.flatten_cons, ← List.append_assoc]
    rw [drainFrames_append (buf ++ c).length (buf ++ c) le_rfl cs.flatten]
    have hres : splitAtDelim (drainFrames (buf ++ c)).2 = none :=
      drainFrames_residue (buf ++ c).length (buf ++ c) le_rfl
    rw [ih (drainFrames (buf ++ c)).2 hres]

/-- Draining a stream consisting of newline-free records, each terminated
by the blank-line delimiter, followed by a delimiter-free tail, yields
each record trimmed, in order, exactly once. -/
theorem drainFrames_records :
    ∀ (rs : List (List Char)) (tail : List Char),
      (∀ r ∈ rs, '\n' ∉ r) → splitAtDelim tail = none →
      drainFrames ((rs.map mkRecord).flatten ++ tail) = (rs.map trimChars, tail) := by
  intro rs
  induction rs with
  | nil =>
    intro tail _ ht
    rw [List.map_nil, List.flatten_nil, List.nil_append, drainFrames_eq_none ht]
    rfl
  | cons r rs ih =>
    intro tail hr ht
    have hr1 : '\n' ∉ r := hr r (List.mem_cons_self r rs)
    have hrs : ∀ x ∈ rs, '\n' ∉ x := fun x hx => hr x (List.mem_cons_of_mem r hx)
    rw [List.map_cons, List.flatten_cons]
    have hshape : (mkRecord r ++ (rs.map mkRecord).flatten) ++ tail
        = r ++ '\n' :: '\n' :: ((rs.map mkRecord).flatten ++ tail) := by
      unfold mkRecord
      simp
    rw [hshape]
    rw [drainFrames_eq_some (splitAtDelim_record _ hr1)]
    rw [ih tail hrs ht]
    rfl

/-- C4: for every finite sequence of raw text chunks whose concatenation
consists of newline-free records each terminated by the blank-line
delimiter (plus a delimiter-free tail), the frame decoder emits exactly
those records, trimmed, each exactly once and in order — independent of
how the concatenated text is split across feed calls. -/
theorem c4_frame_decoder_chunking_invariance
    (rs cs : List (List Char)) (tail : List Char)
    (hr : ∀ r ∈ rs, '\n' ∉ r) (ht : splitAtDelim tail = none)
    (hc : cs.flatten = (rs.map mkRecord).flatten ++ tail) :
    (feedChunks cs []).1 = rs.map trimChars := by
  rw [feedChunks_join cs [] (show splitAtDelim [] = none from rfl)]
  rw [List.nil_append, hc, drainFrames_records rs tail hr ht]

/-- Witness for C4: two `data:` JSON records delivered in three chunks
whose boundaries split the delimiter itself still decode to exactly the
two records. -/
theorem c4_frame_decoder_chunking_invariance_witness :
    (∀ r ∈ [("data: a").data, ("data: b").data], '\n' ∉ r)
    ∧ splitAtDelim [] = none
    ∧ ([("data: a\n").data, ("\ndata: b").data, ("\n\n").data] : List (List Char)).flatten
        = ([("data: a").data, ("data: b").data].map mkRecord).flatten ++ []
    ∧ (feedChunks [("data: a\n").data, ("\ndata: b").data, ("\n\n").data] []).1
        = [("data: a").data, ("data: b").data].map trimChars :=
  ⟨by decide, rfl, by decide,
   c4_frame_decoder_chunking_invariance
     [("data: a").data, ("data: b").data]
     [("data: a\n").data, ("\ndata: b").data, ("\n\n").data]
     [] (by decide) rfl (by decide)⟩

/-- Fuel irrelevance for the inner message loop. -/
theorem processBufferF_fuel (parse : List Char → Option Payload) :
    ∀ (f1 f2 : Nat) (buf : List Char), buf.length ≤ f1 → buf.length ≤ f2 →
      processBufferF parse f1 buf = processBufferF parse f2 buf := by
  intro f1
  induction f1 with
  | zero =>
    intro f2 buf h1 _
    have hb : buf = [] := List.eq_nil_of_length_eq_zero (Nat.le_zero.mp h1)
    subst hb
    cases f2 <;> simp [processBufferF, splitAtDelim]
  | succ n ih =>
    intro f2 buf h1 h2
    cases f2 with
    | zero =>
      have hb : buf = [] := List.eq_nil_of_length_eq_zero (Nat.le_zero.mp h2)
      subst hb
      simp [processBufferF, splitAtDelim]
    | succ m =>
      simp only [processBufferF]
      cases hs : splitAtDelim buf with
      | none => rfl
      | some pr =>
        obtain ⟨pre, rest⟩ := pr
        have hlen := splitAtDelim_length hs
        simp [ih m rest (by omega) (by omega)]

/-- Unfolding equation of the message loop when the buffer holds no
complete message: nothing is dispatched and the buffer is retained. -/
theorem processBuffer_eq_none {parse : List Char → Option Payload} {buf : List Char}
    (h : splitAtDelim buf = none) :
    processBuffer parse buf = ([], some buf) := by
  unfold processBuffer
  cases hn : buf.length with
  | zero => simp [processBufferF]
  | succ n => simp [processBufferF, h]

/-- Unfolding equation of the message loop when the buffer holds a
complete message. -/
theorem processBuffer_eq_some {parse : List Char → Option Payload} {buf pre rest : List Char}
    (h : splitAtDelim buf = some (pre, rest)) :
    processBuffer parse buf =
      (if startsWithChars (trimChars pre) dataHead then
        (if trimChars ((trimChars pre).drop 5) = doneBody then ([], none)
         else
           (interpretData parse (trimChars ((trimChars pre).drop 5))
              ++ (processBuffer parse rest).1,
            (processBuffer parse rest).2))
       else processBuffer parse rest) := by
  have hlen := splitAtDelim_length h
  obtain ⟨n, hn⟩ : ∃ n, buf.length = n + 1 := ⟨buf.length - 1, by omega⟩
  conv =>
    lhs
    unfold processBuffer
  rw [hn]
  simp only [processBufferF, h]
  have hfuel : processBufferF parse n rest = processBuffer parse rest := by
    unfold processBuffer
    exact processBufferF_fuel parse n rest.length rest (by omega) le_rfl
  rw [hfuel]

/-- Running the message loop on a concatenation: the left part runs
first; after a `[DONE]` early exit nothing else runs, otherwise the loop
continues on the retained remainder joined with the right part. -/
theorem processBuffer_append (parse : List Char → Option Payload) :
    ∀ (n : Nat) (x : List Char), x.length ≤ n → ∀ y : List Char,
      processBuffer parse (x ++ y)
        = ((processBuffer parse x).1 ++ (contBuf parse (processBuffer parse x).2 y).1,
           (contBuf parse (processBuffer parse x).2 y).2) := by
  intro n
  induction n with
  | zero =>
    intro x hx y
    have hb : x = [] := List.eq_nil_of_length_eq_zero (Nat.le_zero.mp hx)
    subst hb
    rw [processBuffer_eq_none (show splitAtDelim [] = none from rfl)]
    simp [contBuf]
  | succ n ih =>
    intro x hx y
    cases hs : splitAtDelim x with
    | none =>
      rw [processBuffer_eq_none hs]
      simp [contBuf]
    | some pr =>
      obtain ⟨pre, rest⟩ := pr
      have hlen := splitAtDelim_length hs
      rw [processBuffer_eq_some hs]
      rw [processBuffer_eq_some (splitAtDelim_append y hs)]
      by_cases hdata : startsWithChars (trimChars pre) dataHead = true
      · rw [if_pos hdata, if_pos hdata]
        by_cases hdone : trimChars ((trimChars pre).drop 5) = doneBody
        · rw [if_pos hdone, if_pos hdone]
          simp [contBuf]
        · rw [if_neg hdone, if_neg hdone]
          rw [ih rest (by omega) y]
          simp
      · rw [if_neg hdata, if_neg hdata]
        exact ih rest (by omega) y

/-- A string starts with each of its prefixes. -/
theorem startsWithChars_self_append : ∀ (p l : List Char), startsWithChars (p ++ l) p = true := by
  intro p
  induction p with
  | nil =>
    intro l
    rw [List.nil_append]
    cases l <;> rfl
  | cons c ps ih =>
    intro l
    simp [startsWithChars, ih l]

/-- One step of the message loop over a well-formed `data:` record: the
record is consumed, its body is interpreted, and the loop continues on
the rest of the buffer. -/
theorem processBuffer_dataRecord (parse : List Char → Option Payload)
    (b rest : List Char) (hnl : '\n' ∉ b) (htrim : trimChars b = b) (hdone : b ≠ doneBody) :
    processBuffer parse (mkDataRecord b ++ rest)
      = (interpretData parse b ++ (processBuffer parse rest).1,
         (processBuffer parse rest).2) := by
  have hshape : mkDataRecord b ++ rest = (dataHead ++ ' ' :: b) ++ '\n' :: '\n' :: rest := by
    unfold mkDataRecord
    simp
  have hnl2 : '\n' ∉ dataHead ++ ' ' :: b := by
    intro hm
    rw [List.mem_append, List.mem_cons] at hm
    rcases hm with h | h | h
    · simp [dataHead] at h
    · exact absurd h (by decide)
    · exact hnl h
  rw [hshape, processBuffer_eq_some (splitAtDelim_record rest hnl2)]
  by_cases hb : b = []
  · subst hb
    have hmsg : trimChars (dataHead ++ ' ' :: ([] : List Char)) = dataHead := by decide
    rw [hmsg]
    have hsw : startsWithChars dataHead dataHead = true := by decide
    rw [if_pos hsw]
    have hdrop : trimChars (dataHead.drop 5) = ([] : List Char) := by decide
    rw [hdrop]
    rw [if_neg (by decide : ¬ (([] : List Char) = doneBody))]
  · have hparts := trim_fixed_parts htrim
    have hmsg : trimChars (dataHead ++ ' ' :: b) = dataHead ++ ' ' :: b := by
      have hleft : trimLeft (dataHead ++ ' ' :: b) = dataHead ++ ' ' :: b :=
        dropWhile_append_of_fixed (' ' :: b) (by decide) (by decide)
      have hright : trimRight (dataHead ++ ' ' :: b) = dataHead ++ ' ' :: b := by
        have hshape2 : dataHead ++ ' ' :: b = (dataHead ++ [' ']) ++ b := by simp
        rw [hshape2]
        exact trimRight_append_of_fixed hb hparts.2
      unfold trimChars
      rw [hleft, hright]
    rw [hmsg]
    rw [if_pos (startsWithChars_self_append dataHead (' ' :: b))]
    have hdrop : (dataHead ++ ' ' :: b).drop 5 = ' ' :: b := by
      have h5 : (5 : Nat) = dataHead.length := rfl
      rw [h5, List.drop_left]
    rw [hdrop]
    have hbody : trimChars (' ' :: b) = b := by
      rw [trimChars_cons_ws b (by decide), htrim]
    rw [hbody]
    rw [if_neg hdone]

/-- A `[DONE]` record triggers the early return of line 255: no action is
dispatched for it and the rest of the buffer is never examined. -/
theorem processBuffer_doneRecord (parse : List Char → Option Payload) (junk : List Char) :
    processBuffer parse (doneRecord ++ junk) = ([], none) := by
  have hshape : doneRecord ++ junk = (dataHead ++ ' ' :: doneBody) ++ '\n' :: '\n' :: junk := by
    unfold doneRecord mkDataRecord
    simp
  have hnl : '\n' ∉ dataHead ++ ' ' :: doneBody := by decide
  rw [hshape, processBuffer_eq_some (splitAtDelim_record junk hnl)]
  have hmsg : trimChars (dataHead ++ ' ' :: doneBody) = dataHead ++ ' ' :: doneBody := by decide
  rw [hmsg]
  rw [if_pos (by decide : startsWithChars (dataHead ++ ' ' :: doneBody) dataHead = true)]
  rw [if_pos (by decide : trimChars ((dataHead ++ ' ' :: doneBody).drop 5) = doneBody)]

/-- C5: when the interpreted stream reaches a `[DONE]` sentinel (after a
fully consumed prefix whose actions are `acts`), the read loop exits
immediately: the bytes after the sentinel in the same buffer are never
processed, no further chunk is pulled, the transport end never matters,
and cleanup dispatches COMPLETE, marking the session successful. -/
theorem c5_done_sentinel (parse : List Char → Option Payload)
    (closureError : Option (List Char)) (c junk : List Char)
    (cs : List (List Char)) (ek : ReadEnd) (acts : List StreamAction)
    (h : processBuffer parse c = (acts, some [])) :
    runSession parse closureError (.ok ()) (.ok ()) ((c ++ doneRecord ++ junk) :: cs) ek
      = StreamAction.START :: StreamAction.UPDATE_STATUS (some uploadingMsg)
          :: StreamAction.UPDATE_STATUS (some streamOpenMsg)
          :: (acts ++ [StreamAction.COMPLETE (some completeMsg)]) := by
  have hjoin : processBuffer parse ([] ++ (c ++ (doneRecord ++ junk))) = (acts, none) := by
    rw [List.nil_append]
    rw [processBuffer_append parse c.length c le_rfl (doneRecord ++ junk)]
    rw [h]
    simp [contBuf, processBuffer_doneRecord]
  have hloop : readLoop parse ((c ++ (doneRecord ++ junk)) :: cs) ek [] = (acts, .doneSignal) := by
    rw [readLoop]
    rw [hjoin]
  rw [List.append_assoc]
  unfold runSession
  simp [tryPhase, hloop, exitToOutcome, isSuccess, catchActions, cleanupActions]

/-- Witness for C5: a concrete session whose first chunk carries the
sentinel followed by a further valid record, plus one more chunk; neither
is processed and the session completes. -/
theorem c5_done_sentinel_witness :
    processBuffer jsonParse [] = ([], some [])
    ∧ runSession jsonParse none (.ok ()) (.ok ())
        (([] ++ doneRecord ++ ("data: \x7b\"transcript\":\"zz\"\x7d\n\n").data)
          :: [("data: \x7b\"summary\":\"yy\"\x7d\n\n").data]) .eof
      = StreamAction.START :: StreamAction.UPDATE_STATUS (some uploadingMsg)
          :: StreamAction.UPDATE_STATUS (some streamOpenMsg)
          :: ([] ++ [StreamAction.COMPLETE (some completeMsg)]) :=
  ⟨by decide,
   c5_done_sentinel jsonParse none [] (("data: \x7b\"transcript\":\"zz\"\x7d\n\n").data)
     [("data: \x7b\"summary\":\"yy\"\x7d\n\n").data] .eof [] (by decide)⟩

/-- C7: a `data:` frame whose body fails JSON parsing is non-fatal: it is
skipped (it contributes no action at all, in particular no terminal
transition), and the interpretation of the valid frames before and after
it is still applied. -/
theorem c7_malformed_body_nonfatal (parse : List Char → Option Payload)
    (b1 bad b2 : List Char)
    (h1 : cleanDataBody b1) (hb : cleanDataBody bad) (h2 : cleanDataBody b2)
    (hfail : parse bad = none) :
    processBuffer parse (mkDataRecord b1 ++ (mkDataRecord bad ++ mkDataRecord b2))
      = (interpretData parse b1 ++ interpretData parse b2, some [])
      ∧ interpretData parse bad = [] := by
  have hbadAct : interpretData parse bad = [] := by
    unfold interpretData
    rw [hfail]
  refine ⟨?_, hbadAct⟩
  rw [processBuffer_dataRecord parse b1 _ h1.1 h1.2.1 h1.2.2]
  rw [processBuffer_dataRecord parse bad _ hb.1 hb.2.1 hb.2.2]
  rw [hbadAct]
  have h3 : processBuffer parse (mkDataRecord b2)
      = (interpretData parse b2 ++ ([] : List StreamAction), some []) := by
    conv =>
      lhs
      rw [show mkDataRecord b2 = mkDataRecord b2 ++ [] from (List.append_nil _).symm]
    rw [processBuffer_dataRecord parse b2 [] h2.1 h2.2.1 h2.2.2]
    rw [processBuffer_eq_none (show splitAtDelim [] = none from rfl)]
  rw [h3]
  simp

/-- Witness for C7: a malformed body between two valid JSON records is
skipped while both neighbours are interpreted. -/
theorem c7_malformed_body_nonfatal_witness :
    cleanDataBody (("\x7b\"transcript\":\"a\"\x7d").data)
    ∧ cleanDataBody (("oops").data)
    ∧ cleanDataBody (("\x7b\"summary\":\"b\"\x7d").data)
    ∧ jsonParse (("oops").data) = none
    ∧ (processBuffer jsonParse
        (mkDataRecord (("\x7b\"transcript\":\"a\"\x7d").data)
          ++ (mkDataRecord (("oops").data)
                ++ mkDataRecord (("\x7b\"summary\":\"b\"\x7d").data)))
        = (interpretData jsonParse (("\x7b\"transcript\":\"a\"\x7d").data)
            ++ interpretData jsonParse (("\x7b\"summary\":\"b\"\x7d").data), some [])
       ∧ interpretData jsonParse (("oops").data) = []) :=
  ⟨by decide, by decide, by decide, by decide,
   c7_malformed_body_nonfatal jsonParse
     (("\x7b\"transcript\":\"a\"\x7d").data) (("oops").data)
     (("\x7b\"summary\":\"b\"\x7d").data)
     (by decide) (by decide) (by decide) (by decide)⟩

/-- The interpreter itself never dispatches a terminal transition: ERROR
and COMPLETE only ever come from the catch and cleanup blocks. -/
theorem interpretData_no_terminal (parse : List Char → Option Payload) (body : List Char) :
    ∀ a ∈ interpretData parse body, isTerminalAction a = false := by
  intro a ha
  unfold interpretData at ha
  cases hp : parse body <;> rw [hp] at ha
  · simp at ha
  · rename_i d
    simp only [] at ha
    split at ha
    · split at ha
      · simp at ha
        subst ha
        rfl
      · simp at ha
    · simp only [List.mem_append] at ha
      rcases ha with (ha | ha) | ha
      · split at ha
        · simp at ha
          subst ha
          rfl
        · simp at ha
      · split at ha
        · rename_i t _
          by_cases ht : t = []
          · rw [if_pos ht] at ha
            simp at ha
          · rw [if_neg ht] at ha
            simp at ha
            subst ha
            rfl
        · simp at ha
      · split at ha
        · rename_i t _
          by_cases ht : t = []
          · rw [if_pos ht] at ha
            simp at ha
          · rw [if_neg ht] at ha
            simp at ha
            subst ha
            rfl
        · simp at ha

/-- The whole message loop never dispatches a terminal transition. -/
theorem processBuffer_no_terminal (parse : List Char → Option Payload) :
    ∀ (n : Nat) (buf : List Char), buf.length ≤ n →
      ∀ a ∈ (processBuffer parse buf).1, isTerminalAction a = false := by
  intro n
  induction n with
  | zero =>
    intro buf hb a ha
    have hb2 : buf = [] := List.eq_nil_of_length_eq_zero (Nat.le_zero.mp hb)
    subst hb2
    rw [processBuffer_eq_none (show splitAtDelim [] = none from rfl)] at ha
    simp at ha
  | succ n ih =>
    intro buf hb a ha
    cases hs : splitAtDelim buf with
    | none =>
      rw [processBuffer_eq_none hs] at ha
      simp at ha
    | some pr =>
      obtain ⟨pre, rest⟩ := pr
      have hlen := splitAtDelim_length hs
      rw [processBuffer_eq_some hs] at ha
      by_cases hdata : startsWithChars (trimChars pre) dataHead = true
      · rw [if_pos hdata] at ha
        by_cases hdone : trimChars ((trimChars pre).drop 5) = doneBody
        · rw [if_pos hdone] at ha
          simp at ha
        · rw [if_neg hdone] at ha
          simp only [List.mem_append] at ha
          rcases ha with ha | ha
          · exact interpretData_no_terminal parse _ a ha
          · exact ih rest (by omega) a ha
      · rw [if_neg hdata] at ha
        exact ih rest (by omega) a ha

/-- The read loop never dispatches a terminal transition. -/
theorem readLoop_no_terminal (parse : List Char → Option Payload) :
    ∀ (cs : List (List Char)) (ek : ReadEnd) (buf : List Char),
      ∀ a ∈ (readLoop parse cs ek buf).1, isTerminalAction a = false := by
  intro cs
  induction cs with
  | nil =>
    intro ek buf a ha
    cases ek <;> simp [readLoop] at ha
  | cons c cs ih =>
    intro ek buf a ha
    simp only [readLoop] at ha
    split at ha
    · simp only [] at ha
      exact processBuffer_no_terminal parse (buf ++ c).length _ le_rfl a ha
    · simp only [List.mem_append] at ha
      rcases ha with ha | ha
      · exact processBuffer_no_terminal parse (buf ++ c).length _ le_rfl a ha
      · exact ih ek _ a ha

/-- Folding a dispatched sequence splits over concatenation. -/
theorem applyActions_append (s : StreamState) (xs ys : List StreamAction) :
    applyActions s (xs ++ ys) = applyActions (applyActions s xs) ys := by
  unfold applyActions
  rw [List.foldl_append]

/-- C1 (code bug): a successfully parsed payload with tag `ERROR` does not
abort the session.  The `throw` of line 266 is caught by the inner catch
of line 274, which only logs; the run applies the transition of the next
frame and ends with the generic interrupted error, never with the
payload's message. -/
theorem c1_error_tag_swallowed :
    runSession jsonParse none (.ok ()) (.ok ())
        [("data: \x7b\"tag\":\"ERROR\",\"message\":\"boom\"\x7d\n\ndata: \x7b\"transcript\":\"hi\"\x7d\n\n").data]
        .eof
      = [StreamAction.START, StreamAction.UPDATE_STATUS (some uploadingMsg),
         StreamAction.UPDATE_STATUS (some streamOpenMsg),
         StreamAction.APPEND_TRANSCRIPT (("hi").data), StreamAction.ERROR interruptedMsg]
    ∧ (applyActions initialState (runSession jsonParse none (.ok ()) (.ok ())
        [("data: \x7b\"tag\":\"ERROR\",\"message\":\"boom\"\x7d\n\ndata: \x7b\"transcript\":\"hi\"\x7d\n\n").data]
        .eof)).error = some interruptedMsg
    ∧ (applyActions initialState (runSession jsonParse none (.ok ()) (.ok ())
        [("data: \x7b\"tag\":\"ERROR\",\"message\":\"boom\"\x7d\n\ndata: \x7b\"transcript\":\"hi\"\x7d\n\n").data]
        .eof)).error ≠ some (("boom").data) :=
  ⟨by decide, by decide, by decide⟩

/-- C2 (code bug): a session that fails mid-read applies two terminal
transitions.  The catch of line 287 dispatches ERROR with the thrown
message, and the cleanup of line 301 dispatches a second ERROR because its
guard reads the stale closure-captured `state.error` (still null), not
whether an ERROR was dispatched during this session. -/
theorem c2_double_terminal_dispatch :
    runSession jsonParse none (.ok ()) (.ok ()) []
        (.fail { name := ("TypeError").data, message := ("Failed to fetch").data })
      = [StreamAction.START, StreamAction.UPDATE_STATUS (some uploadingMsg),
         StreamAction.UPDATE_STATUS (some streamOpenMsg),
         StreamAction.ERROR (("Failed to fetch").data), StreamAction.ERROR interruptedMsg]
    ∧ (runSession jsonParse none (.ok ()) (.ok ()) []
        (.fail { name := ("TypeError").data, message := ("Failed to fetch").data })).countP
          isTerminalAction = 2 :=
  ⟨by decide, by decide⟩

/-- C3 counterexample: a session cancelled while processing (the read
rejects with an `AbortError`) does surface an application-visible error:
cleanup dispatches the generic interrupted ERROR, so the final state has a
non-null `error`. -/
theorem c3_cancellation_counterexample :
    (applyActions initialState (runSession jsonParse none (.ok ()) (.ok ()) []
        (.fail { name := ("AbortError").data,
                 message := ("signal is aborted without reason").data }))).error
      = some interruptedMsg
    ∧ (applyActions initialState (runSession jsonParse none (.ok ()) (.ok ()) []
        (.fail { name := ("AbortError").data,
                 message := ("signal is aborted without reason").data }))).error ≠ none
    ∧ (applyActions initialState (runSession jsonParse none (.ok ()) (.ok ()) []
        (.fail { name := ("AbortError").data,
                 message := ("signal is aborted without reason").data }))).isProcessing
      = false :=
  ⟨by decide, by decide, by decide⟩

/-- C3 as amended: when a session whose closure-captured `state.error` was
null is cancelled mid-read, the abort exception itself dispatches no
action (the catch suppresses `AbortError`), the loop dispatches no
terminal transition, and the session still reaches `isProcessing = false`
— but only because cleanup dispatches the generic interrupted ERROR, so
the cancellation is surfaced as a failure. -/
theorem c3_amended_cancellation (parse : List Char → Option Payload)
    (chunks : List (List Char)) (e : JsError) (s : StreamState)
    (hname : e.name = abortErrName)
    (hreach : (readLoop parse chunks (ReadEnd.fail e) []).2 = LoopExit.thrown e) :
    catchActions (TryOutcome.thrown e) = []
    ∧ (applyActions s (runSession parse none (.ok ()) (.ok ()) chunks
        (ReadEnd.fail e))).isProcessing = false
    ∧ (applyActions s (runSession parse none (.ok ()) (.ok ()) chunks
        (ReadEnd.fail e))).error = some interruptedMsg
    ∧ (∀ t, StreamAction.ERROR t ∈ runSession parse none (.ok ()) (.ok ()) chunks
        (ReadEnd.fail e) → t = interruptedMsg) := by
  have hcatch : catchActions (TryOutcome.thrown e) = [] := by
    simp [catchActions, hname]
  have hacts : runSession parse none (.ok ()) (.ok ()) chunks (ReadEnd.fail e)
      = StreamAction.START ::
          (([StreamAction.UPDATE_STATUS (some uploadingMsg),
             StreamAction.UPDATE_STATUS (some streamOpenMsg)]
              ++ (readLoop parse chunks (ReadEnd.fail e) []).1)
            ++ [StreamAction.ERROR interruptedMsg]) := by
    unfold runSession tryPhase
    simp only []
    rw [hreach]
    simp [exitToOutcome, hcatch, isSuccess, cleanupActions, jsFalsy]
  have hfold : applyActions s (runSession parse none (.ok ()) (.ok ()) chunks (ReadEnd.fail e))
      = streamReducer
          (applyActions (streamReducer s StreamAction.START)
            ([StreamAction.UPDATE_STATUS (some uploadingMsg),
              StreamAction.UPDATE_STATUS (some streamOpenMsg)]
              ++ (readLoop parse chunks (ReadEnd.fail e) []).1))
          (StreamAction.ERROR interruptedMsg) := by
    rw [hacts]
    show applyActions s (StreamAction.START :: _) = _
    unfold applyActions
    rw [List.foldl_cons, List.foldl_append]
    rfl
  refine ⟨hcatch, ?_, ?_, ?_⟩
  · rw [hfold]
    rfl
  · rw [hfold]
    rfl
  · intro t ht
    rw [hacts] at ht
    simp only [List.mem_cons, List.mem_append] at ht
    rcases ht with ht | (ht | ht) | ht
    · cases ht
    · rcases ht with ht | ht
      · cases ht
      · rcases ht with ht | ht
        · cases ht
        · cases ht
    · have hterm := readLoop_no_terminal parse chunks (ReadEnd.fail e) [] _ ht
      simp [isTerminalAction] at hterm
    · rcases ht with ht | ht
      · cases ht
        rfl
      · cases ht

/-- Witness for the amended C3: a concrete cancelled session. -/
theorem c3_amended_cancellation_witness :
    catchActions (TryOutcome.thrown { name := ("AbortError").data, message := ("aborted").data })
      = []
    ∧ (applyActions initialState (runSession jsonParse none (.ok ()) (.ok ()) []
        (ReadEnd.fail { name := ("AbortError").data,
                        message := ("aborted").data }))).isProcessing = false
    ∧ (applyActions initialState (runSession jsonParse none (.ok ()) (.ok ()) []
        (ReadEnd.fail { name := ("AbortError").data,
                        message := ("aborted").data }))).error = some interruptedMsg :=
  ⟨(c3_amended_cancellation jsonParse []
      { name := ("AbortError").data, message := ("aborted").data } initialState rfl rfl).1,
   (c3_amended_cancellation jsonParse []
      { name := ("AbortError").data, message := ("aborted").data } initialState rfl rfl).2.1,
   (c3_amended_cancellation jsonParse []
      { name := ("AbortError").data, message := ("aborted").data } initialState rfl rfl).2.2.1⟩

/-- C6: the append transitions join with a single space exactly when the
accumulated text is nonempty, for transcript and summary alike; appending
hello and world from the empty transcript gives the space-joined text,
and appending the empty fragment first still yields no leading space. -/
theorem c6_append_join (s : StreamState) (t : List Char) :
    (streamReducer s (StreamAction.APPEND_TRANSCRIPT t)).transcript
      = (if s.transcript = [] then s.transcript ++ t else s.transcript ++ ' ' :: t)
    ∧ (streamReducer s (StreamAction.APPEND_SUMMARY t)).summary
      = (if s.summary = [] then s.summary ++ t else s.summary ++ ' ' :: t)
    ∧ (applyActions initialState
        [StreamAction.APPEND_TRANSCRIPT (("hello").data),
         StreamAction.APPEND_TRANSCRIPT (("world").data)]).transcript
      = ("hello world").data
    ∧ (applyActions initialState
        [StreamAction.APPEND_TRANSCRIPT [],
         StreamAction.APPEND_TRANSCRIPT (("x").data)]).transcript
      = ("x").data := by
  refine ⟨?_, ?_, by decide, by decide⟩
  · cases ht : s.transcript with
    | nil => simp [streamReducer, ht]
    | cons a l => simp [streamReducer, ht]
  · cases hsm : s.summary with
    | nil => simp [streamReducer, hsm]
    | cons a l => simp [streamReducer, hsm]

/-- C8 counterexample: the ERROR transition does not set the status to
the plain text `error: boom`; the reducer uses the template of line 147,
which prefixes a cross mark and a capitalised word instead. -/
theorem c8_status_counterexample :
    (streamReducer initialState (StreamAction.ERROR (("boom").data))).statusMessage
      ≠ some ((("error: ").data) ++ ("boom").data) := by
  decide

/-- C8 as amended: `ERROR(t)` yields `isProcessing = false`, `error = t`,
and status equal to the cross-marked template prefix followed by `t`
(the code's literal of line 147), and the transition marks the session no
longer processing (the terminal indicator). -/
theorem c8_error_transition (s : StreamState) (t : List Char) :
    (streamReducer s (StreamAction.ERROR t)).isProcessing = false
    ∧ (streamReducer s (StreamAction.ERROR t)).error = some t
    ∧ (streamReducer s (StreamAction.ERROR t)).statusMessage = some (errStatusHead ++ t) :=
  ⟨rfl, rfl, rfl⟩

/-- C9: while the published state is processing, a start request is
rejected by the guard of line 184 as a no-op: no action is dispatched and
any observed state is left unchanged. -/
theorem c9_busy_start_noop (hasFile : Bool) (closureState : StreamState)
    (parse : List Char → Option Payload) (ur sr : Except JsError Unit)
    (chunks : List (List Char)) (ek : ReadEnd) (s : StreamState)
    (h : closureState.isProcessing = true) :
    handleUploadAndAnalyze hasFile closureState parse ur sr chunks ek = []
    ∧ applyActions s (handleUploadAndAnalyze hasFile closureState parse ur sr chunks ek) = s := by
  have he : handleUploadAndAnalyze hasFile closureState parse ur sr chunks ek = [] := by
    unfold handleUploadAndAnalyze
    rw [h]
    simp
  exact ⟨he, by rw [he]; rfl⟩

/-- Witness for C9: starting while a concrete processing state is
published dispatches nothing and leaves a concrete state unchanged. -/
theorem c9_busy_start_noop_witness :
    ({ initialState with isProcessing := true } : StreamState).isProcessing = true
    ∧ handleUploadAndAnalyze true { initialState with isProcessing := true } jsonParse
        (.ok ()) (.ok ()) [] .eof = []
    ∧ applyActions initialState
        (handleUploadAndAnalyze true { initialState with isProcessing := true } jsonParse
          (.ok ()) (.ok ()) [] .eof) = initialState :=
  ⟨rfl,
   (c9_busy_start_noop true { initialState with isProcessing := true } jsonParse
      (.ok ()) (.ok ()) [] .eof initialState rfl).1,
   (c9_busy_start_noop true { initialState with isProcessing := true } jsonParse
      (.ok ()) (.ok ()) [] .eof initialState rfl).2⟩

/-- C10: a successfully parsed payload only ever causes an append for a
fragment that is present and nonempty: any APPEND_TRANSCRIPT (and
likewise APPEND_SUMMARY) emitted for the frame carries exactly the
payload's fragment and that fragment is not the empty string, so a
present-but-empty fragment emits no append at all. -/
theorem c10_empty_fragment_no_append (parse : List Char → Option Payload)
    (body : List Char) (p : Payload) (h : parse body = some p) :
    (∀ t, StreamAction.APPEND_TRANSCRIPT t ∈ interpretData parse body →
      p.transcript = some t ∧ t ≠ [])
    ∧ (∀ t, StreamAction.APPEND_SUMMARY t ∈ interpretData parse body →
      p.summary = some t ∧ t ≠ []) := by
  constructor
  · intro t ht
    unfold interpretData at ht
    rw [h] at ht
    simp only [] at ht
    split at ht
    · split at ht <;> simp at ht
    · simp only [List.mem_append] at ht
      rcases ht with (ht | ht) | ht
      · split at ht <;> simp at ht
      · split at ht
        · rename_i t2 heq
          by_cases ht2 : t2 = []
          · rw [if_pos ht2] at ht
            simp at ht
          · rw [if_neg ht2] at ht
            simp at ht
            subst ht
            exact ⟨heq, ht2⟩
        · simp at ht
      · split at ht
        · rename_i t2 _
          by_cases ht2 : t2 = []
          · rw [if_pos ht2] at ht
            simp at ht
          · rw [if_neg ht2] at ht
            simp at ht
        · simp at ht
  · intro t ht
    unfold interpretData at ht
    rw [h] at ht
    simp only [] at ht
    split at ht
    · split at ht <;> simp at ht
    · simp only [List.mem_append] at ht
      rcases ht with (ht | ht) | ht
      · split at ht <;> simp at ht
      · split at ht
        · rename_i t2 _
          by_cases ht2 : t2 = []
          · rw [if_pos ht2] at ht
            simp at ht
          · rw [if_neg ht2] at ht
            simp at ht
        · simp at ht
      · split at ht
        · rename_i t2 heq
          by_cases ht2 : t2 = []
          · rw [if_pos ht2] at ht
            simp at ht
          · rw [if_neg ht2] at ht
            simp at ht
            subst ht
            exact ⟨heq, ht2⟩
        · simp at ht

/-- Witness for C10: a payload whose transcript field is present but
empty emits no APPEND_TRANSCRIPT. -/
theorem c10_empty_fragment_no_append_witness :
    StreamAction.APPEND_TRANSCRIPT [] ∉
      interpretData jsonParse (("\x7b\"transcript\":\"\"\x7d").data) :=
  fun hmem =>
    absurd rfl
      ((c10_empty_fragment_no_append jsonParse (("\x7b\"transcript\":\"\"\x7d").data)
          { tag := none, message := none, transcript := some [], summary := none }
          (by decide)).1 [] hmem).2
